import Mathlib

/-!
Verification development for the meteor-simulation training-data generator
(wmpl.Utils.PyDomainParallelizer, wmpl.MetSim.ML.GenerateSimulations).

Each Python function relevant to the checked properties is shallowly embedded
as a Lean definition below; the theorems settle the stated properties of those
embeddings.  Machine floats are modelled by exact rationals or reals (real
arithmetic); NaN / infinity behaviour, where it matters, is modelled by an
explicit inductive value type.
-/

namespace WMPL

/-! ### wmpl.Utils.PyDomainParallelizer -/

/-- Result of a Python call that may raise: either a value or an exception
message. -/
inductive PyResult (β : Type) : Type
  | ok (val : β)
  | exn (msg : String)
  deriving DecidableEq, Repr

/-- Value bound to the local variable `results` after the `cores == 1` loop of
`domainParallelizer` (lines 153-155): each iteration rebinds `results` to a
fresh one-element list `[function(*args, **kwarg_dict)]`, so after the loop it
holds only the last call's result; for an empty domain it is unbound (`none`).
-/
def seqLoopResults {α β : Type} (domain : List α) (f : α → β) : Option (List β) :=
  domain.getLast?.map (fun a => [f a])

/-- Embedding of `domainParallelizer(domain, function, cores)`
(PyDomainParallelizer.py lines 107-172), with `kwarg_dict` already absorbed
into `f`.  The `cores == 1` branch runs the loop of lines 153-155 (whose
result is `seqLoopResults`) and then evaluates `results.get()` on line 172,
which raises `AttributeError` because `results` is a plain list (or is unbound
when the domain is empty).  The `cores > 1` branch submits the domain to
`pool.starmap_async`, whose `.get()` returns the worker results in the order
of the submitted arguments, modelled by `List.map`.  Any other `cores` raises
`ValueError` (lines 166-170). -/
def domainParallelizer {α β : Type} (domain : List α) (f : α → β) (cores : Nat) :
    PyResult (List β) :=
  if cores = 1 then
    match seqLoopResults domain f with
    | some _ => PyResult.exn "AttributeError: list object has no attribute get"
    | none => PyResult.exn "UnboundLocalError: local variable results referenced before assignment"
  else if 1 < cores then
    PyResult.ok (domain.map f)
  else
    PyResult.exn "ValueError: The number of CPU cores defined is not in an expected range (1 or more.)"

/-- Observable outcome of `parallelComputeGenerator`: the returned list, the
final value of the `total_runs` counter (line 51/59/78), and how many inputs
were drawn from the generator via `next`. -/
structure PCGOutput (β : Type) : Type where
  results : List β
  totalRuns : Nat
  consumed : Nat
  deriving DecidableEq, Repr

/-- Embedding of the `while len(results) < req_num` loop of
`parallelComputeGenerator` (PyDomainParallelizer.py lines 70-86).  The
stateful Python generator is modelled as `gen : Nat → α` together with the
count `idx` of inputs drawn so far; `pool.map` is `List.map`.  Each round
draws `n_proc` fresh inputs, maps the worker over them, keeps the results the
check function retains, and stops when `max_runs ≤ total_runs` (the
`break` on lines 84-86).  `fuel` bounds the recursion; callers pass enough
fuel that it is never exhausted when `0 < n_proc`. -/
def pcgLoop {α β : Type} (worker : α → β) (check : List β → List β)
    (req maxRuns nProc : Nat) (gen : Nat → α) :
    Nat → Nat → Nat → List β → PCGOutput β
  | 0, idx, total, results => ⟨results, total, idx⟩
  | fuel + 1, idx, total, results =>
    if results.length < req then
      let inputList := (List.range nProc).map fun i => gen (idx + i)
      let resultsTemp := inputList.map worker
      let total' := total + inputList.length
      let results' := results ++ check resultsTemp
      if maxRuns ≤ total' then ⟨results', total', idx + nProc⟩
      else pcgLoop worker check req maxRuns nProc gen fuel (idx + nProc) total' results'
    else ⟨results, total, idx⟩

/-- Embedding of `parallelComputeGenerator(generator, workerFunc,
resultsCheckFunc, req_num, n_proc, max_runs)` (PyDomainParallelizer.py lines
10-92).  When `max_runs` is `none` it defaults to `10 * req_num` (lines
43-44).  The initial batch draws `req_num` inputs, maps the worker, and
filters (lines 54-62); if no good result remains, the empty list is returned
at once (lines 65-67).  Otherwise the loop runs and the final list is
truncated to `req_num` (lines 89-90). -/
def parallelComputeGenerator {α β : Type} (gen : Nat → α) (worker : α → β)
    (check : List β → List β) (req nProc : Nat) (maxRunsOpt : Option Nat) :
    PCGOutput β :=
  let maxRuns := maxRunsOpt.getD (10 * req)
  let inputList := (List.range req).map gen
  let initial := check (inputList.map worker)
  if initial.length = 0 then ⟨initial, req, req⟩
  else
    let out := pcgLoop worker check req maxRuns nProc gen (maxRuns + 1) req req initial
    ⟨out.results.take req, out.totalRuns, out.consumed⟩

/-- Invariant of `pcgLoop`: as long as the remaining fuel covers the distance
to the run budget, a final run count below `maxRuns` means the loop stopped
because enough results had accumulated (the fuel case and the budget-break
case both end with `maxRuns ≤ totalRuns`). -/
theorem pcgLoop_enough_of_under_budget {α β : Type} (worker : α → β)
    (check : List β → List β) (req maxRuns nProc : Nat) (gen : Nat → α)
    (hp : 0 < nProc) :
    ∀ fuel idx total results, maxRuns ≤ total + fuel →
      ((pcgLoop worker check req maxRuns nProc gen fuel idx total results).totalRuns < maxRuns →
        req ≤ (pcgLoop worker check req maxRuns nProc gen fuel idx total results).results.length) := by
  intro fuel
  induction fuel with
  | zero =>
    intro idx total results hinv
    simp only [pcgLoop]
    intro hlt
    omega
  | succ fuel ih =>
    intro idx total results hinv
    simp only [pcgLoop, List.length_map, List.length_range]
    by_cases hlen : results.length < req
    · simp only [hlen, if_true]
      by_cases hbud : maxRuns ≤ total + nProc
      · simp only [hbud, if_true]
        intro hlt
        omega
      · simp only [hbud, if_false]
        exact ih (idx + nProc) (total + nProc)
          (results ++ check (((List.range nProc).map fun i => gen (idx + i)).map worker))
          (by omega)
    · simp only [hlen, if_false]
      intro _
      omega

/-- First-round behaviour of `pcgLoop` when the accumulated results already
reach the required count: the loop body is never entered. -/
theorem pcgLoop_done {α β : Type} (worker : α → β) (check : List β → List β)
    (req maxRuns nProc : Nat) (gen : Nat → α) (fuel idx total : Nat)
    (results : List β) (h : ¬ results.length < req) :
    pcgLoop worker check req maxRuns nProc gen (fuel + 1) idx total results =
      ⟨results, total, idx⟩ := by
  simp only [pcgLoop, h, if_false]

/-- C1.  `domainParallelizer` with `cores=1` does not return the list of
per-tuple results: the loop on lines 153-155 rebinds `results` to a
one-element list holding only the last call's value, and line 172 then calls
`.get()` on that plain list, raising `AttributeError`.  With `cores=2` the
pooled path does return all results in input order.  Shown at the concrete
failing input `domain = [2, 4]`, `function = Nat.succ`. -/
theorem c1_domainParallelizer_cores1_crashes :
    domainParallelizer [2, 4] Nat.succ 1 =
        PyResult.exn "AttributeError: list object has no attribute get" ∧
      seqLoopResults [2, 4] Nat.succ = some [5] ∧
      domainParallelizer [2, 4] Nat.succ 2 = PyResult.ok [3, 5] ∧
      domainParallelizer [2, 4] Nat.succ 1 ≠ PyResult.ok [3, 5] := by
  refine ⟨rfl, rfl, rfl, ?_⟩
  intro h
  exact PyResult.noConfusion h

/-- C7.  If the results filter leaves nothing of the initial batch of exactly
`req` worker invocations, `parallelComputeGenerator` returns the empty list
immediately: the run counter stops at `req` (one invocation per initial
input), exactly `req` inputs were drawn from the generator, and the default
run budget `10 * req` is not consumed. -/
theorem c7_initial_batch_all_bad_aborts {α β : Type} (gen : Nat → α)
    (worker : α → β) (check : List β → List β) (req nProc : Nat)
    (maxRunsOpt : Option Nat) (hreq : 1 ≤ req)
    (hempty : check (((List.range req).map gen).map worker) = []) :
    parallelComputeGenerator gen worker check req nProc maxRunsOpt =
        ⟨[], req, req⟩ ∧ req < 10 * req := by
  constructor
  · simp only [parallelComputeGenerator, hempty, List.length_nil, if_true]
  · omega

/-- Witness for C7 at a concrete instance: identity generator and worker, a
filter that rejects everything, `req = 3`. -/
theorem c7_initial_batch_all_bad_aborts_witness :
    parallelComputeGenerator (fun n => n) (fun n : Nat => n)
        (fun _ => ([] : List Nat)) 3 2 none = ⟨[], 3, 3⟩ ∧ 3 < 10 * 3 :=
  c7_initial_batch_all_bad_aborts (fun n => n) (fun n : Nat => n)
    (fun _ => ([] : List Nat)) 3 2 none (by decide) rfl

/-- C8.  The returned list never exceeds `req` elements; omitting `max_runs`
is the same as passing the budget `10 * req`; whenever the initial batch
yields at least one good result and the final run count is below the budget,
exactly `req` results are returned; and with a filter that keeps everything,
exactly `req` results are returned after exactly `req` worker runs. -/
theorem c8_budget_and_result_count {α β : Type} (gen : Nat → α) (worker : α → β)
    (check : List β → List β) (req nProc : Nat) (maxRunsOpt : Option Nat)
    (hp : 0 < nProc) (hreq : 1 ≤ req) :
    (parallelComputeGenerator gen worker check req nProc maxRunsOpt).results.length ≤ req ∧
      parallelComputeGenerator gen worker check req nProc none =
        parallelComputeGenerator gen worker check req nProc (some (10 * req)) ∧
      (check (((List.range req).map gen).map worker) ≠ [] →
        (parallelComputeGenerator gen worker check req nProc maxRunsOpt).totalRuns <
            maxRunsOpt.getD (10 * req) →
        (parallelComputeGenerator gen worker check req nProc maxRunsOpt).results.length = req) ∧
      ((parallelComputeGenerator gen worker (fun l => l) req nProc maxRunsOpt).results.length
          = req ∧
        (parallelComputeGenerator gen worker (fun l => l) req nProc maxRunsOpt).totalRuns
          = req) := by
  refine ⟨?_, rfl, ?_, ?_⟩
  · simp only [parallelComputeGenerator]
    by_cases h0 : (check (((List.range req).map gen).map worker)).length = 0
    · simp only [h0, if_true]
      omega
    · simp only [h0, if_false, List.length_take]
      omega
  · intro hne hlt
    have h0 : ¬ (check (((List.range req).map gen).map worker)).length = 0 := by
      simpa [List.length_eq_zero] using hne
    simp only [parallelComputeGenerator, h0, if_false, List.length_take] at hlt ⊢
    have := pcgLoop_enough_of_under_budget worker check req (maxRunsOpt.getD (10 * req))
      nProc gen hp (maxRunsOpt.getD (10 * req) + 1) req req
      (check (((List.range req).map gen).map worker)) (by omega) hlt
    omega
  · have hinit : (((List.range req).map gen).map worker).length = req := by
      simp
    have h0 : ¬ (((List.range req).map gen).map worker).length = 0 := by omega
    have hdone : ¬ (((List.range req).map gen).map worker).length < req := by omega
    constructor
    · simp only [parallelComputeGenerator, h0, if_false,
        pcgLoop_done _ _ _ _ _ _ _ _ _ _ hdone, List.length_take]
      omega
    · simp only [parallelComputeGenerator, h0, if_false,
        pcgLoop_done _ _ _ _ _ _ _ _ _ _ hdone]

/-- Witness for C8 at a concrete instance: identity generator and worker, a
filter that keeps even numbers, `req = 4`, `nProc = 2`, default budget. -/
theorem c8_budget_and_result_count_witness :
    (parallelComputeGenerator (fun n => n) (fun n : Nat => n)
          (fun l => l.filter (fun n => n % 2 = 0)) 4 2 none).results.length ≤ 4 ∧
      parallelComputeGenerator (fun n => n) (fun n : Nat => n)
          (fun l => l.filter (fun n => n % 2 = 0)) 4 2 none =
        parallelComputeGenerator (fun n => n) (fun n : Nat => n)
          (fun l => l.filter (fun n => n % 2 = 0)) 4 2 (some (10 * 4)) ∧
      ((fun l => l.filter (fun n : Nat => n % 2 = 0))
          (((List.range 4).map (fun n => n)).map (fun n : Nat => n)) ≠ [] →
        (parallelComputeGenerator (fun n => n) (fun n : Nat => n)
            (fun l => l.filter (fun n => n % 2 = 0)) 4 2 none).totalRuns <
            (none : Option Nat).getD (10 * 4) →
        (parallelComputeGenerator (fun n => n) (fun n : Nat => n)
            (fun l => l.filter (fun n => n % 2 = 0)) 4 2 none).results.length = 4) ∧
      ((parallelComputeGenerator (fun n => n) (fun n : Nat => n)
            (fun l => l) 4 2 none).results.length = 4 ∧
        (parallelComputeGenerator (fun n => n) (fun n : Nat => n)
            (fun l => l) 4 2 none).totalRuns = 4) :=
  c8_budget_and_result_count (fun n => n) (fun n : Nat => n)
    (fun l => l.filter (fun n => n % 2 = 0)) 4 2 none (by decide) (by decide)

/-! ### extractSimData, step 1: NaN fixing (GenerateSimulations.py lines 706-707) -/

/-- Value of one machine-float magnitude sample: a finite value (modelled
exactly by a rational), positive or negative infinity, or NaN. -/
inductive FloatVal : Type
  | finite (q : ℚ)
  | posInf
  | negInf
  | nan
  deriving DecidableEq, Repr

/-- Test used by `np.isnan`: true exactly on NaN (false on infinities). -/
def FloatVal.isnan : FloatVal → Bool
  | nan => true
  | _ => false

/-- True exactly on finite values (false on NaN and both infinities). -/
def FloatVal.isFinite : FloatVal → Bool
  | finite _ => true
  | _ => false

/-- IEEE `fmax`, the reduction operation of `np.nanmax`: ignores NaN operands,
otherwise the maximum with `negInf < finite _ < posInf`. -/
def FloatVal.fmax : FloatVal → FloatVal → FloatVal
  | nan, b => b
  | finite a, nan => finite a
  | posInf, nan => posInf
  | negInf, nan => negInf
  | posInf, _ => posInf
  | _, posInf => posInf
  | finite a, finite b => finite (max a b)
  | finite a, negInf => finite a
  | negInf, finite b => finite b
  | negInf, negInf => negInf

/-- `np.nanmax`: maximum of the array ignoring NaNs (NaN if every entry is
NaN).  NaN is the neutral element of `fmax`, so the fold starts from it. -/
def nanmax (l : List FloatVal) : FloatVal :=
  l.foldl FloatVal.fmax FloatVal.nan

/-- Line 707 of GenerateSimulations.py:
`abs_magnitude[np.isnan(abs_magnitude)] = np.nanmax(abs_magnitude)` —
every entry selected by `np.isnan` is overwritten with `np.nanmax` of the
array; all other entries stay in place. -/
def fixNanMags (l : List FloatVal) : List FloatVal :=
  l.map (fun x => if x.isnan then nanmax l else x)

theorem foldl_fmax_isFinite (l : List FloatVal) :
    ∀ acc : FloatVal, (∀ x ∈ l, x ≠ FloatVal.posInf ∧ x ≠ FloatVal.negInf) →
      (acc = FloatVal.nan ∨ acc.isFinite = true) →
      ((∃ x ∈ l, x.isnan = false) ∨ acc.isFinite = true) →
      (l.foldl FloatVal.fmax acc).isFinite = true := by
  induction l with
  | nil =>
    intro acc _ hacc hsrc
    rcases hsrc with hsrc | hsrc
    · simp at hsrc
    · simpa using hsrc
  | cons h t ih =>
    intro acc hok hacc hsrc
    have hokh := hok h (List.mem_cons_self h t)
    have hokt : ∀ x ∈ t, x ≠ FloatVal.posInf ∧ x ≠ FloatVal.negInf :=
      fun x hx => hok x (List.mem_cons_of_mem h hx)
    simp only [List.foldl_cons]
    rcases hacc with hacc | hacc
    · subst hacc
      cases h with
      | finite q =>
        exact ih (FloatVal.finite q) hokt (Or.inr rfl) (Or.inr rfl)
      | posInf => exact absurd rfl hokh.1
      | negInf => exact absurd rfl hokh.2
      | nan =>
        refine ih FloatVal.nan hokt (Or.inl rfl) ?_
        rcases hsrc with ⟨x, hx, hxnan⟩ | hfin
        · rcases List.mem_cons.mp hx with hx | hx
          · subst hx
            simp [FloatVal.isnan] at hxnan
          · exact Or.inl ⟨x, hx, hxnan⟩
        · simp [FloatVal.isFinite] at hfin
    · cases acc with
      | finite q =>
        cases h with
        | finite r =>
          exact ih (FloatVal.finite (max q r)) hokt (Or.inr rfl) (Or.inr rfl)
        | posInf => exact absurd rfl hokh.1
        | negInf => exact absurd rfl hokh.2
        | nan => exact ih (FloatVal.finite q) hokt (Or.inr rfl) (Or.inr rfl)
      | posInf => simp [FloatVal.isFinite] at hacc
      | negInf => simp [FloatVal.isFinite] at hacc
      | nan => simp [FloatVal.isFinite] at hacc

theorem nanmax_isFinite (l : List FloatVal)
    (hok : ∀ x ∈ l, x ≠ FloatVal.posInf ∧ x ≠ FloatVal.negInf)
    (hsome : ∃ x ∈ l, x.isnan = false) : (nanmax l).isFinite = true :=
  foldl_fmax_isFinite l FloatVal.nan hok (Or.inl rfl) (Or.inl hsome)

/-- C3 counterexample.  At the concrete magnitude array `[5.0, +inf]` the NaN
fixing step (which tests with `np.isnan`) replaces nothing: the positive
infinity is a non-finite entry that survives, so after the step not all
magnitude samples are finite, contradicting the claim that every non-finite
entry (NaN as well as both infinities) is replaced. -/
theorem c3_infinity_survives_counterexample :
    fixNanMags [FloatVal.finite 5, FloatVal.posInf] =
        [FloatVal.finite 5, FloatVal.posInf] ∧
      ¬ (∀ y ∈ fixNanMags [FloatVal.finite 5, FloatVal.posInf], y.isFinite = true) := by
  decide

/-- C3 amended.  Only the NaN entries are replaced (each with `np.nanmax` of
the array); every non-NaN entry — including any infinity — is left unchanged,
silently and with no rejection.  When the array contains no infinities and at
least one non-NaN sample, every sample is finite after the step. -/
theorem c3_nan_fix (l : List FloatVal)
    (hok : ∀ x ∈ l, x ≠ FloatVal.posInf ∧ x ≠ FloatVal.negInf)
    (hsome : ∃ x ∈ l, x.isnan = false) :
    (∀ y ∈ fixNanMags l, y.isFinite = true) ∧
      (fixNanMags l).length = l.length ∧
      (∀ i, i < l.length → (l.getD i FloatVal.nan).isnan = false →
        (fixNanMags l).getD i FloatVal.nan = l.getD i FloatVal.nan) ∧
      (∀ i, i < l.length → (l.getD i FloatVal.nan).isnan = true →
        (fixNanMags l).getD i FloatVal.nan = nanmax l) := by
  refine ⟨?_, by simp [fixNanMags], ?_, ?_⟩
  · intro y hy
    rcases List.mem_map.mp hy with ⟨x, hx, hxy⟩
    by_cases hxnan : x.isnan = true
    · have : y = nanmax l := by
        rw [← hxy]
        simp [hxnan]
      rw [this]
      exact nanmax_isFinite l hok hsome
    · have hxok := hok x hx
      have : y = x := by
        rw [← hxy]
        simp [hxnan]
      rw [this]
      cases x with
      | finite q => rfl
      | posInf => exact absurd rfl hxok.1
      | negInf => exact absurd rfl hxok.2
      | nan => simp [FloatVal.isnan] at hxnan
  · intro i hi hnan
    have hi' : i < (fixNanMags l).length := by simp [fixNanMags]; omega
    rw [List.getD_eq_getElem l FloatVal.nan hi, List.getD_eq_getElem _ FloatVal.nan hi']
    simp only [fixNanMags, List.getElem_map]
    rw [List.getD_eq_getElem l FloatVal.nan hi] at hnan
    simp [hnan]
  · intro i hi hnan
    have hi' : i < (fixNanMags l).length := by simp [fixNanMags]; omega
    rw [List.getD_eq_getElem _ FloatVal.nan hi']
    simp only [fixNanMags, List.getElem_map]
    rw [List.getD_eq_getElem l FloatVal.nan hi] at hnan
    simp [hnan]

/-- Witness for C3 at the concrete array `[NaN, 3.0, 1.0]`: the NaN entry
becomes `3.0` (the nanmax), the others stay, and all entries end up finite. -/
theorem c3_nan_fix_witness :
    (∀ y ∈ fixNanMags [FloatVal.nan, FloatVal.finite 3, FloatVal.finite 1],
        y.isFinite = true) ∧
      (fixNanMags [FloatVal.nan, FloatVal.finite 3, FloatVal.finite 1]).length =
        ([FloatVal.nan, FloatVal.finite 3, FloatVal.finite 1] : List FloatVal).length ∧
      (∀ i, i < ([FloatVal.nan, FloatVal.finite 3, FloatVal.finite 1] : List FloatVal).length →
        (([FloatVal.nan, FloatVal.finite 3, FloatVal.finite 1] : List FloatVal).getD i
            FloatVal.nan).isnan = false →
        (fixNanMags [FloatVal.nan, FloatVal.finite 3, FloatVal.finite 1]).getD i FloatVal.nan =
          ([FloatVal.nan, FloatVal.finite 3, FloatVal.finite 1] : List FloatVal).getD i
            FloatVal.nan) ∧
      (∀ i, i < ([FloatVal.nan, FloatVal.finite 3, FloatVal.finite 1] : List FloatVal).length →
        (([FloatVal.nan, FloatVal.finite 3, FloatVal.finite 1] : List FloatVal).getD i
            FloatVal.nan).isnan = true →
        (fixNanMags [FloatVal.nan, FloatVal.finite 3, FloatVal.finite 1]).getD i FloatVal.nan =
          nanmax [FloatVal.nan, FloatVal.finite 3, FloatVal.finite 1]) :=
  c3_nan_fix [FloatVal.nan, FloatVal.finite 3, FloatVal.finite 1]
    (by decide) (by decide)

/-! ### extractSimData: visibility mask (GenerateSimulations.py lines 716-729) -/

/-- `np.argmax` on a boolean array: index of the first `true`, and `0` when
every entry is `false` (or the array is empty). -/
def npArgmaxBool (l : List Bool) : Nat :=
  match l.findIdx? (fun b => b) with
  | some i => i
  | none => 0

/-- Python slice assignment `mask[s:] = False` (with `s` already translated to
a non-negative start index): entries from position `s` on become `false`. -/
def setFalseFrom (mask : List Bool) (s : Nat) : List Bool :=
  mask.mapIdx (fun i b => if s ≤ i then false else b)

/-- Line 720: `indices_visible[: np.argmax(abs_magnitude <= starting_lim_mag)]
= False` — everything before the first crossing of the starting limiting
magnitude is marked invisible. -/
def startingTrimStep (mags : List ℚ) (slm : ℚ) (mask : List Bool) : List Bool :=
  mask.mapIdx (fun i b =>
    if i < npArgmaxBool (mags.map (fun m => decide (m ≤ slm))) then false else b)

/-- Lines 722-723:
`if abs_magnitude[-1] > ending_lim_mag:`
`    indices_visible[-np.argmax(abs_magnitude[::-1] <= ending_lim_mag):] = False` —
when the last sample is fainter (numerically greater) than the ending
limiting magnitude, the tail after the last crossing of the ending limiting
magnitude is marked invisible.  The negative Python index `-k` addresses
position `len(mask) - k`, except that `-0` addresses position `0`. -/
def endingTrimStep (mags : List ℚ) (elm : ℚ) (mask : List Bool) : List Bool :=
  match mags.getLast? with
  | none => mask
  | some lastMag =>
    if elm < lastMag then
      setFalseFrom mask
        (if npArgmaxBool (mags.reverse.map (fun m => decide (m ≤ elm))) = 0 then 0
         else mask.length - npArgmaxBool (mags.reverse.map (fun m => decide (m ≤ elm))))
    else mask

/-- Line 725: `indices_visible[abs_magnitude >= min_lim_mag] = False` —
samples at or above the looser (numerically larger... here the `min` of the
two thresholds, i.e. the numerically smaller bound selects visibility) are
marked invisible. -/
def faintTrimStep (mags : List ℚ) (minLimMag : ℚ) (mask : List Bool) : List Bool :=
  List.zipWith (fun b m => if minLimMag ≤ m then false else b) mask mags

/-- Lines 726-729: samples whose height lies outside `[ht_min, ht_max]` are
marked invisible. -/
def heightTrimStep (hts : List ℚ) (htMin htMax : ℚ) (mask : List Bool) : List Bool :=
  List.zipWith (fun b h => if htMax < h ∨ h < htMin then false else b) mask hts

/-- The full visibility-mask computation of lines 717-729, starting from
`np.ones(..., dtype=bool)` and applying the four mask updates in program
order (`min_lim_mag = min(starting_lim_mag, ending_lim_mag)`, line 717). -/
def indicesVisible (mags hts : List ℚ) (slm elm htMin htMax : ℚ) : List Bool :=
  heightTrimStep hts htMin htMax
    (faintTrimStep mags (min slm elm)
      (endingTrimStep mags elm
        (startingTrimStep mags slm (List.replicate mags.length true))))

/-- C2 counterexample.  Magnitudes `[7, 9]` with ending limiting magnitude
`8`: the final sample `9` is fainter than (not brighter than) the ending
threshold, yet the code's ending trim fires and changes the mask, whereas the
claim says no ending trim occurs in this case. -/
theorem c2_ending_trim_counterexample :
    endingTrimStep [7, 9] 8 [true, true] = [true, false] ∧
      endingTrimStep [7, 9] 8 [true, true] ≠ [true, true] ∧
      ¬ ((9 : ℚ) < 8) := by
  refine ⟨by decide, by decide, by norm_num⟩

/-- C2 amended.  The backward trim at the ending limiting magnitude is
applied exactly when the final magnitude sample is fainter than the ending
threshold (numerically greater): if the last sample is at or below (at least
as bright as) the threshold, the mask is unchanged; if the last sample is
fainter, a mask entry survives exactly when it survived before and some
sample at its index or later is at or below the ending threshold (i.e. the
trailing run strictly after the last at-or-below crossing is cleared, the
whole mask when there is no crossing). -/
theorem c2_ending_trim_exactly_when_fainter (mags : List ℚ) (elm : ℚ)
    (mask : List Bool) (lastMag : ℚ) (hlast : mags.getLast? = some lastMag)
    (hlen : mask.length = mags.length) :
    (lastMag ≤ elm → endingTrimStep mags elm mask = mask) ∧
      (elm < lastMag → ∀ i, i < mask.length →
        (endingTrimStep mags elm mask).getD i false =
          (mask.getD i false &&
            decide (∃ j < mags.length, i ≤ j ∧ mags.getD j 0 ≤ elm))) := by
  constructor
  · intro hle
    simp only [endingTrimStep, hlast, not_lt.mpr hle, if_false]
  · intro hgt i hi
    have hn : 0 < mags.length := by
      rcases List.getLast?_eq_some_iff.mp hlast with ⟨ys, hys⟩
      simp [hys]
    have hlastD : mags.getD (mags.length - 1) 0 = lastMag := by
      rw [List.getD_eq_getElem mags 0 (by omega : mags.length - 1 < mags.length)]
      have h1 := (List.getLast?_eq_getElem? mags).symm.trans hlast
      rw [List.getElem?_eq_getElem (by omega : mags.length - 1 < mags.length)] at h1
      exact Option.some.inj h1
    have hrevlen : (mags.reverse.map (fun m => decide (m ≤ elm))).length = mags.length := by
      simp
    have hrevget : ∀ j, j < mags.length →
        (mags.reverse.map (fun m => decide (m ≤ elm))).getD j false =
          decide (mags.getD (mags.length - 1 - j) 0 ≤ elm) := by
      intro j hj
      rw [List.getD_eq_getElem _ false (by omega), List.getElem_map, List.getElem_reverse,
        List.getD_eq_getElem mags 0 (by omega)]
    have hstep : endingTrimStep mags elm mask =
        setFalseFrom mask
          (if npArgmaxBool (mags.reverse.map (fun m => decide (m ≤ elm))) = 0 then 0
           else mask.length - npArgmaxBool (mags.reverse.map (fun m => decide (m ≤ elm)))) := by
      simp only [endingTrimStep, hlast, hgt, if_true]
    have hgetD : ∀ s, (setFalseFrom mask s).getD i false =
        if s ≤ i then false else mask.getD i false := by
      intro s
      have hi' : i < (setFalseFrom mask s).length := by
        simp only [setFalseFrom, List.length_mapIdx]
        omega
      rw [List.getD_eq_getElem _ false hi', List.getD_eq_getElem mask false hi]
      simp [setFalseFrom]
    set rv := mags.reverse.map (fun m => decide (m ≤ elm)) with hrv
    by_cases hex2 : ∃ j < mags.length, mags.getD j 0 ≤ elm
    · -- some sample crosses the ending threshold; locate the last crossing
      rcases hex2 with ⟨j0, hj0, hmagj0⟩
      have hsome : ∃ x ∈ rv, (fun b => b) x = true := by
        refine ⟨rv.getD (mags.length - 1 - j0) false, ?_, ?_⟩
        · rw [List.getD_eq_getElem rv false (by omega)]
          exact rv.getElem_mem (by omega)
        · rw [hrevget (mags.length - 1 - j0) (by omega)]
          have hco : mags.length - 1 - (mags.length - 1 - j0) = j0 := by omega
          rw [hco]
          simpa using hmagj0
      set k := rv.findIdx (fun b => b) with hkdef
      have hk : k < rv.length := List.findIdx_lt_length_of_exists hsome
      have hknp : npArgmaxBool rv = k := by
        unfold npArgmaxBool
        rw [List.findIdx?_eq_some_iff_findIdx_eq.mpr ⟨hk, rfl⟩]
      have hkn : k < mags.length := by omega
      have hkt : rv.getD k false = true := by
        rw [List.getD_eq_getElem rv false hk]
        have h2 := @List.findIdx_getElem _ (fun b => b) rv hk
        simpa using h2
      have hL : mags.getD (mags.length - 1 - k) 0 ≤ elm := by
        have h3 := hrevget k hkn
        rw [h3] at hkt
        exact of_decide_eq_true hkt
      have hknz : ¬ k = 0 := by
        intro hk0
        rw [hk0, Nat.sub_zero, hlastD] at hL
        exact absurd hgt (not_lt.mpr hL)
      have habove : ∀ j, mags.length - 1 - k < j → j < mags.length →
          ¬ (mags.getD j 0 ≤ elm) := by
        intro j hLj hj
        have hj' : mags.length - 1 - j < k := by omega
        have hfalse := @List.not_of_lt_findIdx _ (fun b => b) rv _ hj'
        have hfalseD : rv.getD (mags.length - 1 - j) false = false := by
          rw [List.getD_eq_getElem rv false (by omega)]
          simpa using hfalse
        rw [hrevget (mags.length - 1 - j) (by omega)] at hfalseD
        have hco : mags.length - 1 - (mags.length - 1 - j) = j := by omega
        rw [hco] at hfalseD
        simpa using hfalseD
      by_cases hex : ∃ j < mags.length, i ≤ j ∧ mags.getD j 0 ≤ elm
      · -- a crossing exists at or after i: entry i survives the trim
        have hdec : decide (∃ j < mags.length, i ≤ j ∧ mags.getD j 0 ≤ elm) = true := by
          rw [decide_eq_true_iff]
          exact hex
        rcases hex with ⟨j1, hj1, hij1, hmagj1⟩
        rw [hstep, hgetD, hknp, if_neg hknz, hdec, Bool.and_true]
        have hile : i ≤ mags.length - 1 - k := by
          have hj1le : j1 ≤ mags.length - 1 - k := by
            by_contra hcon2
            push_neg at hcon2
            exact habove j1 hcon2 hj1 hmagj1
          omega
        rw [if_neg (by omega : ¬ (mask.length - k ≤ i))]
      · -- every crossing lies strictly before i: entry i is trimmed
        have hdec : decide (∃ j < mags.length, i ≤ j ∧ mags.getD j 0 ≤ elm) = false := by
          simpa using hex
        have hLi : mags.length - 1 - k < i := by
          by_contra hcon
          push_neg at hcon
          exact hex ⟨mags.length - 1 - k, by omega, hcon, hL⟩
        rw [hdec, Bool.and_false, hstep, hgetD, hknp, if_neg hknz,
          if_pos (by omega : mask.length - k ≤ i)]
    · -- no sample ever crosses: argmax is 0, the whole mask is cleared
      have hnone : rv.findIdx? (fun b => b) = none := by
        rw [List.findIdx?_eq_none_iff]
        intro x hx
        rcases List.mem_map.mp hx with ⟨m, hm, hxm⟩
        rcases List.mem_iff_getElem.mp (List.mem_reverse.mp hm) with ⟨j, hj, hjm⟩
        have hnle : ¬ (m ≤ elm) := by
          intro hle
          refine hex2 ⟨j, hj, ?_⟩
          rw [List.getD_eq_getElem mags 0 hj, hjm]
          exact hle
        simp [← hxm, hnle]
      have hzero : npArgmaxBool rv = 0 := by
        unfold npArgmaxBool
        rw [hnone]
      have hdec : decide (∃ j < mags.length, i ≤ j ∧ mags.getD j 0 ≤ elm) = false := by
        simp only [decide_eq_false_iff_not]
        intro ⟨j, hj, _, hmag⟩
        exact hex2 ⟨j, hj, hmag⟩
      rw [hdec, Bool.and_false, hstep, hgetD, hzero, if_pos rfl,
        if_pos (Nat.zero_le i)]

/-- Witness for C2 at the concrete input `mags = [9, 7, 9, 9]`, `elm = 8`,
all-true mask: the last sample `9` is fainter than `8`, so the trailing run
after the last crossing (index 1, magnitude 7) is cleared. -/
theorem c2_ending_trim_exactly_when_fainter_witness :
    ((9 : ℚ) ≤ 8 → endingTrimStep [9, 7, 9, 9] 8 [true, true, true, true] =
        [true, true, true, true]) ∧
      ((8 : ℚ) < 9 → ∀ i, i < ([true, true, true, true] : List Bool).length →
        (endingTrimStep [9, 7, 9, 9] 8 [true, true, true, true]).getD i false =
          (([true, true, true, true] : List Bool).getD i false &&
            decide (∃ j < ([9, 7, 9, 9] : List ℚ).length, i ≤ j ∧
              ([9, 7, 9, 9] : List ℚ).getD j 0 ≤ 8))) :=
  c2_ending_trim_exactly_when_fainter [9, 7, 9, 9] 8 [true, true, true, true] 9
    rfl rfl

/-! ### extractSimData: tracking-delay handling (GenerateSimulations.py lines 774-784) -/

/-- Lines 778-784 of GenerateSimulations.py:
`len_sampled[time_sampled < len_delay] = 0` zeroes every length sample whose
time is strictly before the drawn delay;
`first_length_index = np.argwhere(time_sampled >= len_delay)[0][0]` finds the
first resampled time at or after the delay (raising `IndexError`, modelled by
`none`, when no such time exists); and
`len_sampled[first_length_index:] -= len_sampled[first_length_index]` rebases
the length channel from that index on. -/
def applyDelay (times lens : List ℚ) (d : ℚ) : Option (List ℚ) :=
  let zeroed := List.zipWith (fun t l => if t < d then 0 else l) times lens
  match times.findIdx? (fun t => decide (d ≤ t)) with
  | none => none
  | some fi =>
    some (zeroed.mapIdx (fun i l => if fi ≤ i then l - zeroed.getD fi 0 else l))

/-- C4.  For a strictly increasing resampled time grid (as produced by
`np.arange`) containing some time at or after the drawn delay `d`, the
delay step succeeds and afterwards every length sample at a time strictly
before `d` is exactly zero, and the length sample at the first time at or
after `d` is exactly zero after the rebasing. -/
theorem c4_delay_zeroes_and_rebases (times lens : List ℚ) (d : ℚ)
    (hlen : times.length = lens.length)
    (hsorted : times.Pairwise (· < ·))
    (hex : ∃ t ∈ times, d ≤ t) :
    ∃ res, applyDelay times lens d = some res ∧
      res.length = times.length ∧
      (∀ i, i < times.length → times.getD i 0 < d → res.getD i 0 = 0) ∧
      res.getD (times.findIdx (fun t => decide (d ≤ t))) 0 = 0 := by
  have hex' : ∃ x ∈ times, (fun t => decide (d ≤ t)) x = true := by
    rcases hex with ⟨t, ht, hdt⟩
    exact ⟨t, ht, by simpa using hdt⟩
  set fi := times.findIdx (fun t => decide (d ≤ t)) with hfidef
  have hfi : fi < times.length := List.findIdx_lt_length_of_exists hex'
  have hfind : times.findIdx? (fun t => decide (d ≤ t)) = some fi :=
    List.findIdx?_eq_some_iff_findIdx_eq.mpr ⟨hfi, rfl⟩
  set zeroed := List.zipWith (fun t l => if t < d then 0 else l) times lens with hzdef
  have hzlen : zeroed.length = times.length := by
    rw [hzdef, List.length_zipWith, hlen, min_self]
  have hzget : ∀ i, i < times.length →
      zeroed.getD i 0 = if times.getD i 0 < d then 0 else lens.getD i 0 := by
    intro i hi
    rw [List.getD_eq_getElem zeroed 0 (by omega), List.getD_eq_getElem times 0 hi,
      List.getD_eq_getElem lens 0 (by omega)]
    simp [hzdef]
  have hdfi : d ≤ times.getD fi 0 := by
    rw [List.getD_eq_getElem times 0 hfi]
    have h2 := @List.findIdx_getElem _ (fun t => decide (d ≤ t)) times hfi
    simpa using h2
  refine ⟨zeroed.mapIdx (fun i l => if fi ≤ i then l - zeroed.getD fi 0 else l), ?_, ?_, ?_, ?_⟩
  · simp only [applyDelay, hfind]
  · simp only [List.length_mapIdx]
    exact hzlen
  · intro i hi hti
    have hi' : i < (zeroed.mapIdx
        (fun i l => if fi ≤ i then l - zeroed.getD fi 0 else l)).length := by
      simp only [List.length_mapIdx]
      omega
    rw [List.getD_eq_getElem _ 0 hi', List.getElem_mapIdx]
    have hilt : i < fi := by
      rcases Nat.lt_or_ge i fi with h | h
      · exact h
      · exfalso
        rcases Nat.eq_or_lt_of_le h with h' | h'
        · rw [← h'] at hti
          exact absurd hti (not_lt.mpr hdfi)
        · have := List.pairwise_iff_getElem.mp hsorted fi i hfi hi h'
          rw [List.getD_eq_getElem times 0 hi] at hti
          rw [List.getD_eq_getElem times 0 hfi] at hdfi
          linarith
    rw [if_neg (by omega : ¬ fi ≤ i)]
    have hz := hzget i hi
    rw [if_pos hti] at hz
    rw [List.getD_eq_getElem zeroed 0 (by omega)] at hz
    exact hz
  · have hfi' : fi < (zeroed.mapIdx
        (fun i l => if fi ≤ i then l - zeroed.getD fi 0 else l)).length := by
      simp only [List.length_mapIdx]
      omega
    rw [List.getD_eq_getElem _ 0 hfi', List.getElem_mapIdx, if_pos (le_refl fi)]
    rw [← List.getD_eq_getElem zeroed 0 (by omega : fi < zeroed.length)]
    ring

/-- Witness for C4 at the concrete grid `times = [0, 1/10, 2/10, 3/10]`,
lengths `[5, 7, 11, 13]`, delay `d = 3/20`: the first time at or after the
delay is at index 2. -/
theorem c4_delay_zeroes_and_rebases_witness :
    ∃ res, applyDelay [0, 1/10, 2/10, 3/10] [5, 7, 11, 13] (3/20) = some res ∧
      res.length = ([0, 1/10, 2/10, 3/10] : List ℚ).length ∧
      (∀ i, i < ([0, 1/10, 2/10, 3/10] : List ℚ).length →
        ([0, 1/10, 2/10, 3/10] : List ℚ).getD i 0 < 3/20 → res.getD i 0 = 0) ∧
      res.getD (([0, 1/10, 2/10, 3/10] : List ℚ).findIdx
        (fun t => decide ((3:ℚ)/20 ≤ t))) 0 = 0 :=
  c4_delay_zeroes_and_rebases [0, 1/10, 2/10, 3/10] [5, 7, 11, 13] (3/20)
    rfl (by norm_num) ⟨3/10, by norm_num, by norm_num⟩

/-! ### normalizeSimulations / denormalizeSimulations
(GenerateSimulations.py lines 564-607) -/

/-- The camera-parameter fields read by the channel normalization
(`ErosionSimParameters` attributes `fps`, `data_length`, `max_duration`,
`ht_min`, `ht_max`, `mag_faintest`, `mag_brightest`). -/
structure CameraParamsQ : Type where
  fps : ℚ
  data_length : ℚ
  max_duration : ℚ
  ht_min : ℚ
  ht_max : ℚ
  mag_faintest : ℚ
  mag_brightest : ℚ
  deriving DecidableEq, Repr

/-- Length-normalization upper bound (lines 574-575 and 597-598):
`len_max = phys_params.v_init.max * camera_params.data_length /
camera_params.fps`; `vInitMax` stands for `phys_params.v_init.max`. -/
def lenMax (vInitMax : ℚ) (cp : CameraParamsQ) : ℚ :=
  vInitMax * cp.data_length / cp.fps

/-- `normalizeSimulations` (lines 564-584), elementwise on the four channel
arrays; `len_min = 0` as in the source. -/
def normalizeSimulations (vInitMax : ℚ) (cp : CameraParamsQ)
    (timeData htData lenData magData : List ℚ) :
    List ℚ × List ℚ × List ℚ × List ℚ :=
  (timeData.map (fun t => t / cp.max_duration),
   htData.map (fun h => (h - cp.ht_min) / (cp.ht_max - cp.ht_min)),
   lenData.map (fun l => (l - 0) / (lenMax vInitMax cp - 0)),
   magData.map (fun m => (cp.mag_faintest - m) / (cp.mag_faintest - cp.mag_brightest)))

/-- `denormalizeSimulations` (lines 587-607), elementwise on the four channel
arrays.  Note the magnitude line (603-605): it computes
`(mag_faintest - mag_brightest) * mag + mag_faintest`, which is not the
inverse of the magnitude normalization. -/
def denormalizeSimulations (vInitMax : ℚ) (cp : CameraParamsQ)
    (timeData htData lenData magData : List ℚ) :
    List ℚ × List ℚ × List ℚ × List ℚ :=
  (timeData.map (fun t => t * cp.max_duration),
   htData.map (fun h => (cp.ht_max - cp.ht_min) * h + cp.ht_min),
   lenData.map (fun l => (lenMax vInitMax cp - 0) * l + 0),
   magData.map (fun m => (cp.mag_faintest - cp.mag_brightest) * m + cp.mag_faintest))

/-- C10.  With the same physical and camera parameters (whose normalization
denominators are nonzero, as they are for every registered profile),
denormalizing the normalized channels returns the time, height and length
data exactly, while the magnitude channel comes back as
`2 * mag_faintest - magnitude`; hence the magnitude channel differs from
the original whenever some magnitude is not equal to `mag_faintest`, so
the two functions are mutual inverses on three of the four channels only. -/
theorem c10_denormalize_normalize_roundtrip (vInitMax : ℚ) (cp : CameraParamsQ)
    (timeData htData lenData magData : List ℚ)
    (hdur : cp.max_duration ≠ 0) (hht : cp.ht_max ≠ cp.ht_min)
    (hlen : lenMax vInitMax cp ≠ 0)
    (hmag : cp.mag_faintest ≠ cp.mag_brightest) :
    denormalizeSimulations vInitMax cp
        (normalizeSimulations vInitMax cp timeData htData lenData magData).1
        (normalizeSimulations vInitMax cp timeData htData lenData magData).2.1
        (normalizeSimulations vInitMax cp timeData htData lenData magData).2.2.1
        (normalizeSimulations vInitMax cp timeData htData lenData magData).2.2.2 =
      (timeData, htData, lenData,
        magData.map (fun m => 2 * cp.mag_faintest - m)) ∧
      ∀ m ∈ magData, m ≠ cp.mag_faintest → 2 * cp.mag_faintest - m ≠ m := by
  have hht' : cp.ht_max - cp.ht_min ≠ 0 := sub_ne_zero.mpr hht
  have hmag' : cp.mag_faintest - cp.mag_brightest ≠ 0 := sub_ne_zero.mpr hmag
  constructor
  · simp only [normalizeSimulations, denormalizeSimulations, List.map_map, Prod.mk.injEq]
    refine ⟨?_, ?_, ?_, ?_⟩
    · have hfun : ((fun t => t * cp.max_duration) ∘ (fun t => t / cp.max_duration)) = id := by
        funext t
        simp only [Function.comp_apply, id_eq]
        exact div_mul_cancel₀ t hdur
      rw [hfun, List.map_id]
    · have hfun : ((fun h => (cp.ht_max - cp.ht_min) * h + cp.ht_min) ∘
          (fun h => (h - cp.ht_min) / (cp.ht_max - cp.ht_min))) = id := by
        funext h
        simp only [Function.comp_apply, id_eq]
        rw [mul_div_cancel₀ _ hht']
        ring
      rw [hfun, List.map_id]
    · have hfun : ((fun l => (lenMax vInitMax cp - 0) * l + 0) ∘
          (fun l => (l - 0) / (lenMax vInitMax cp - 0))) = id := by
        funext l
        simp only [Function.comp_apply, id_eq, sub_zero, add_zero]
        rw [mul_div_cancel₀ _ hlen]
      rw [hfun, List.map_id]
    · have hfun : ((fun m => (cp.mag_faintest - cp.mag_brightest) * m + cp.mag_faintest) ∘
          (fun m => (cp.mag_faintest - m) / (cp.mag_faintest - cp.mag_brightest))) =
          (fun m => 2 * cp.mag_faintest - m) := by
        funext m
        simp only [Function.comp_apply]
        rw [mul_div_cancel₀ _ hmag']
        ring
      rw [hfun]
  · intro m _ hne hcon
    apply hne
    linarith

/-- Witness for C10 with the base `ErosionSimParameters` constants
(`fps = 100`, `data_length = 256`, `max_duration = 10`, heights
`70000..130000`, magnitudes `8..-2`, `v_init.max = 72000`) on small concrete
channel arrays. -/
theorem c10_denormalize_normalize_roundtrip_witness :
    denormalizeSimulations 72000 ⟨100, 256, 10, 70000, 130000, 8, -2⟩
        (normalizeSimulations 72000 ⟨100, 256, 10, 70000, 130000, 8, -2⟩
          [1, 2] [80000] [5] [3]).1
        (normalizeSimulations 72000 ⟨100, 256, 10, 70000, 130000, 8, -2⟩
          [1, 2] [80000] [5] [3]).2.1
        (normalizeSimulations 72000 ⟨100, 256, 10, 70000, 130000, 8, -2⟩
          [1, 2] [80000] [5] [3]).2.2.1
        (normalizeSimulations 72000 ⟨100, 256, 10, 70000, 130000, 8, -2⟩
          [1, 2] [80000] [5] [3]).2.2.2 =
      ([1, 2], [80000], [5], ([3] : List ℚ).map (fun m => 2 * 8 - m)) ∧
      ∀ m ∈ ([3] : List ℚ), m ≠ 8 → 2 * 8 - m ≠ m :=
  c10_denormalize_normalize_roundtrip 72000 ⟨100, 256, 10, 70000, 130000, 8, -2⟩
    [1, 2] [80000] [5] [3] (by norm_num) (by norm_num)
    (by norm_num [lenMax]) (by norm_num)

/-! ### ErosionSimContainer.runSimulation output buckets
(GenerateSimulations.py lines 462-471 and 516-543) -/

/-- Python `int()` applied to a (real-valued) number: truncation toward
zero. -/
def pyInt (x : ℚ) : ℤ :=
  if 0 ≤ x then ⌊x⌋ else -⌊-x⌋

/-- Numeric effect of formatting with `"{:.2f}"` and parsing the digits back
with `float`: rounding to the nearest multiple of `1/100` (the source rounds
the nearest binary double; exact ties, which the model breaks upward, do not
occur for the inputs considered here). -/
def roundTo2 (x : ℚ) : ℚ :=
  (round (x * 100) : ℚ) / 100

/-- Velocity bucket of `runSimulation` (lines 518-523): the file name stores
`v_init.val / 1000` formatted as `"v{:.2f}"` (line 462-463), the directory
code parses it back (`float(split_file[2].strip("v"))`) and takes
`int(vel)`. -/
def velBucket (v : ℚ) : ℤ :=
  pyInt (roundTo2 (v / 1000))

/-- Density bucket of `runSimulation` (lines 532-536): the file name stores
`int(rho.val)` formatted as `"rho{:04d}"` (line 462, 465), the directory code
parses it back and computes `100 * int(float(...) / 100)`. -/
def densBucket (rho : ℚ) : ℤ :=
  100 * pyInt ((pyInt rho : ℚ) / 100)

/-- C9 counterexample.  At the drawn values `v_init = 30520 m/s` (the
default) and `rho = 2567 kg/m^3`, the code's buckets are `v30` and `rho2500`,
while rounding to the nearest integer km/s gives 31 and rounding to the
nearest 100 kg/m^3 gives 2600: the buckets truncate downward, they do not
round to nearest. -/
theorem c9_buckets_truncate_counterexample :
    velBucket 30520 = 30 ∧ round ((30520 : ℚ) / 1000) = 31 ∧ (30 : ℤ) ≠ 31 ∧
      densBucket 2567 = 2500 ∧ 100 * round ((2567 : ℚ) / 100) = 2600 ∧
      (2500 : ℤ) ≠ 2600 := by
  refine ⟨?_, ?_, by decide, ?_, ?_, by decide⟩
  · norm_num [velBucket, pyInt, roundTo2, round_eq]
  · norm_num [round_eq]
  · norm_num [densBucket, pyInt]
  · norm_num [round_eq]

theorem floor_intCast_div_hundred (z : ℤ) (x : ℚ) (hz : z = ⌊x⌋) :
    ⌊(z : ℚ) / 100⌋ = ⌊x / 100⌋ := by
  subst hz
  apply le_antisymm
  · apply Int.floor_le_floor
    have h1 : ((⌊x⌋ : ℤ) : ℚ) ≤ x := Int.floor_le x
    exact (div_le_div_right (by norm_num : (0:ℚ) < 100)).mpr h1
  · rw [Int.le_floor]
    rw [le_div_iff (by norm_num : (0:ℚ) < 100)]
    have h2 : ((⌊x / 100⌋ * 100 : ℤ) : ℚ) ≤ x := by
      push_cast
      rw [← le_div_iff (by norm_num : (0:ℚ) < 100)]
      exact Int.floor_le (x / 100)
    have h3 : (⌊x / 100⌋ * 100 : ℤ) ≤ ⌊x⌋ := Int.le_floor.mpr h2
    calc ((⌊x / 100⌋ : ℤ) : ℚ) * 100 = ((⌊x / 100⌋ * 100 : ℤ) : ℚ) := by push_cast; ring
      _ ≤ ((⌊x⌋ : ℤ) : ℚ) := by exact_mod_cast h3

/-- C9 amended.  The buckets are deterministic in the drawn values, but they
truncate rather than round to nearest: for the (positive) drawn ranges the
velocity bucket is the floor of the two-decimal rendering of the velocity in
km/s, and the density bucket is 100 times the floor of the density divided by
100. -/
theorem c9_buckets_floor (v rho : ℚ) (hv : 0 ≤ v) (hrho : 0 ≤ rho) :
    velBucket v = ⌊roundTo2 (v / 1000)⌋ ∧ densBucket rho = 100 * ⌊rho / 100⌋ := by
  constructor
  · unfold velBucket pyInt
    rw [if_pos]
    unfold roundTo2
    rw [round_eq]
    positivity
  · unfold densBucket pyInt
    rw [if_pos hrho]
    have h0 : (0:ℚ) ≤ (⌊rho⌋ : ℚ) / 100 := by
      apply div_nonneg _ (by norm_num : (0:ℚ) ≤ 100)
      exact_mod_cast Int.floor_nonneg.mpr hrho
    rw [if_pos h0, floor_intCast_div_hundred ⌊rho⌋ rho rfl]

/-- Witness for C9 at the default drawn values `v_init = 30520`,
`rho = 2000`. -/
theorem c9_buckets_floor_witness :
    velBucket 30520 = ⌊roundTo2 ((30520 : ℚ) / 1000)⌋ ∧
      densBucket 2000 = 100 * ⌊(2000 : ℚ) / 100⌋ :=
  c9_buckets_floor 30520 2000 (by norm_num) (by norm_num)

/-! ### MetParam and PhysicalParameters (GenerateSimulations.py lines 40-246),
over exact real arithmetic -/

/-- Distribution kind of a parameter (`gen_method`: `'uniform'` or
`'log10'`). -/
inductive GenMethod : Type
  | uniform
  | log10
  deriving DecidableEq, Repr

/-- Link relation of a parameter (`link_method[0]`: absent, `'greater'` or
`'less'`). -/
inductive LinkRel : Type
  | noLink
  | greater
  | less
  deriving DecidableEq, Repr

/-- Embedding of `MetParam` (lines 40-99): bounds, current value (`none`
models Python `None`), fixed flag, distribution kind and link relation.  The
referenced parameter of a link is held by object reference in the source; in
this embedding the caller passes its current value to `generateVal`
explicitly (the registry wires `erosion_mass_max` to `erosion_mass_min`). -/
structure MetParam : Type where
  min : ℝ
  max : ℝ
  val : Option ℝ
  fixed : Bool
  method : GenMethod
  link : LinkRel

/-- Normalization of one parameter value (`getNormalizedInputs` body, lines
186-193): log-linear for the `log10` method, linear otherwise. -/
noncomputable def normalizeParam (p : MetParam) (v : ℝ) : ℝ :=
  match p.method with
  | GenMethod.log10 =>
      (Real.logb 10 v - Real.logb 10 p.min) / (Real.logb 10 p.max - Real.logb 10 p.min)
  | GenMethod.uniform => (v - p.min) / (p.max - p.min)

/-- Denormalization of one parameter value (`getDenormalizedInputs` body,
lines 204-208). -/
noncomputable def denormalizeParam (p : MetParam) (n : ℝ) : ℝ :=
  match p.method with
  | GenMethod.log10 =>
      p.min * (10 : ℝ) ^ (n * (Real.logb 10 p.max - Real.logb 10 p.min))
  | GenMethod.uniform => n * (p.max - p.min) + p.min

/-- Embedding of `PhysicalParameters` (lines 107-168): the ten registered
parameters, in declaration order. -/
structure PhysicalParameters : Type where
  m_init : MetParam
  v_init : MetParam
  zenith_angle : MetParam
  rho : MetParam
  sigma : MetParam
  erosion_height_start : MetParam
  erosion_coeff : MetParam
  erosion_mass_index : MetParam
  erosion_mass_min : MetParam
  erosion_mass_max : MetParam

/-- `self.param_list`: the registered parameters in declaration order
(lines 122-168). -/
def paramList (pp : PhysicalParameters) : List MetParam :=
  [pp.m_init, pp.v_init, pp.zenith_angle, pp.rho, pp.sigma, pp.erosion_height_start,
   pp.erosion_coeff, pp.erosion_mass_index, pp.erosion_mass_min, pp.erosion_mass_max]

/-- `PhysicalParameters.getInputs` (lines 174-175): current values in
declaration order (the registry guarantees values are set; `getD 0` is the
total rendering of the attribute read). -/
noncomputable def getInputs (pp : PhysicalParameters) : List ℝ :=
  (paramList pp).map (fun p => p.val.getD 0)

/-- `PhysicalParameters.getNormalizedInputs` (lines 177-195). -/
noncomputable def getNormalizedInputs (pp : PhysicalParameters) : List ℝ :=
  (paramList pp).map (fun p => normalizeParam p (p.val.getD 0))

/-- `PhysicalParameters.getDenormalizedInputs` (lines 197-212): zips the
given normalized values with the parameter registry (truncating to the
shorter, as Python `zip` does). -/
noncomputable def getDenormalizedInputs (pp : PhysicalParameters)
    (normList : List ℝ) : List ℝ :=
  List.zipWith (fun n p => denormalizeParam p n) normList (paramList pp)

theorem denormalizeParam_normalizeParam (p : MetParam) (v : ℝ)
    (hlt : p.min < p.max) (hv1 : p.min ≤ v) (hv2 : v ≤ p.max)
    (hpos : p.method = GenMethod.log10 → 0 < p.min) :
    denormalizeParam p (normalizeParam p v) = v := by
  cases hm : p.method with
  | uniform =>
    simp only [denormalizeParam, normalizeParam, hm]
    rw [div_mul_cancel₀ _ (sub_ne_zero.mpr (ne_of_gt hlt))]
    ring
  | log10 =>
    have hmin : 0 < p.min := hpos hm
    have hvpos : 0 < v := lt_of_lt_of_le hmin hv1
    have hmax : 0 < p.max := lt_of_lt_of_le hmin (le_of_lt hlt)
    have hlog : Real.logb 10 p.min < Real.logb 10 p.max :=
      Real.logb_lt_logb (by norm_num) hmin hlt
    simp only [denormalizeParam, normalizeParam, hm]
    rw [div_mul_cancel₀ _ (sub_ne_zero.mpr (ne_of_gt hlog))]
    rw [Real.rpow_sub (by norm_num : (0:ℝ) < 10)]
    rw [Real.rpow_logb (by norm_num) (by norm_num) hvpos,
      Real.rpow_logb (by norm_num) (by norm_num) hmin]
    rw [← mul_div_assoc, mul_div_cancel_left₀ _ (ne_of_gt hmin)]

/-- C5.  For every `PhysicalParameters` instance whose parameter values are
set and lie within their `[min, max]` ranges, with `min < max` and `min > 0`
for log10-distributed parameters, denormalizing the normalized input vector
returns the original values elementwise, exactly, for both distribution
kinds. -/
theorem c5_denormalize_normalize_inputs (pp : PhysicalParameters)
    (hps : ∀ p ∈ paramList pp, p.min < p.max ∧ p.min ≤ p.val.getD 0 ∧
      p.val.getD 0 ≤ p.max ∧ (p.method = GenMethod.log10 → 0 < p.min)) :
    getDenormalizedInputs pp (getNormalizedInputs pp) = getInputs pp := by
  unfold getDenormalizedInputs getNormalizedInputs getInputs
  rw [List.zipWith_map_left, List.zipWith_same]
  refine List.map_congr_left ?_
  intro p hp
  obtain ⟨h1, h2, h3, h4⟩ := hps p hp
  exact denormalizeParam_normalizeParam p (p.val.getD 0) h1 h2 h3 h4

/-- Witness for C5: a concrete instance with both distribution kinds and all
values inside their ranges. -/
theorem c5_denormalize_normalize_inputs_witness :
    getDenormalizedInputs
        ⟨⟨5e-7, 1e-3, some 1e-5, false, GenMethod.log10, LinkRel.noLink⟩,
         ⟨11000, 72000, some 30520, false, GenMethod.uniform, LinkRel.noLink⟩,
         ⟨3/10, 14/10, some (7/10), false, GenMethod.uniform, LinkRel.noLink⟩,
         ⟨100, 3500, some 2000, false, GenMethod.uniform, LinkRel.noLink⟩,
         ⟨5e-9, 3e-7, some 5e-8, false, GenMethod.uniform, LinkRel.noLink⟩,
         ⟨70000, 130000, some 70000, false, GenMethod.uniform, LinkRel.noLink⟩,
         ⟨0, 1e-6, some 1e-7, false, GenMethod.uniform, LinkRel.noLink⟩,
         ⟨15/10, 3, some 2, false, GenMethod.uniform, LinkRel.noLink⟩,
         ⟨1e-12, 1e-9, some 1e-12, false, GenMethod.log10, LinkRel.noLink⟩,
         ⟨1e-11, 1e-7, some 1e-10, false, GenMethod.log10, LinkRel.greater⟩⟩
        (getNormalizedInputs
          ⟨⟨5e-7, 1e-3, some 1e-5, false, GenMethod.log10, LinkRel.noLink⟩,
           ⟨11000, 72000, some 30520, false, GenMethod.uniform, LinkRel.noLink⟩,
           ⟨3/10, 14/10, some (7/10), false, GenMethod.uniform, LinkRel.noLink⟩,
           ⟨100, 3500, some 2000, false, GenMethod.uniform, LinkRel.noLink⟩,
           ⟨5e-9, 3e-7, some 5e-8, false, GenMethod.uniform, LinkRel.noLink⟩,
           ⟨70000, 130000, some 70000, false, GenMethod.uniform, LinkRel.noLink⟩,
           ⟨0, 1e-6, some 1e-7, false, GenMethod.uniform, LinkRel.noLink⟩,
           ⟨15/10, 3, some 2, false, GenMethod.uniform, LinkRel.noLink⟩,
           ⟨1e-12, 1e-9, some 1e-12, false, GenMethod.log10, LinkRel.noLink⟩,
           ⟨1e-11, 1e-7, some 1e-10, false, GenMethod.log10, LinkRel.greater⟩⟩) =
      getInputs
        ⟨⟨5e-7, 1e-3, some 1e-5, false, GenMethod.log10, LinkRel.noLink⟩,
         ⟨11000, 72000, some 30520, false, GenMethod.uniform, LinkRel.noLink⟩,
         ⟨3/10, 14/10, some (7/10), false, GenMethod.uniform, LinkRel.noLink⟩,
         ⟨100, 3500, some 2000, false, GenMethod.uniform, LinkRel.noLink⟩,
         ⟨5e-9, 3e-7, some 5e-8, false, GenMethod.uniform, LinkRel.noLink⟩,
         ⟨70000, 130000, some 70000, false, GenMethod.uniform, LinkRel.noLink⟩,
         ⟨0, 1e-6, some 1e-7, false, GenMethod.uniform, LinkRel.noLink⟩,
         ⟨15/10, 3, some 2, false, GenMethod.uniform, LinkRel.noLink⟩,
         ⟨1e-12, 1e-9, some 1e-12, false, GenMethod.log10, LinkRel.noLink⟩,
         ⟨1e-11, 1e-7, some 1e-10, false, GenMethod.log10, LinkRel.greater⟩⟩ :=
  c5_denormalize_normalize_inputs _ (by
    intro p hp
    simp only [paramList, List.mem_cons, List.not_mem_nil, or_false] at hp
    rcases hp with h | h | h | h | h | h | h | h | h | h <;> subst h <;>
      refine ⟨by norm_num, by norm_num, by norm_num, ?_⟩ <;>
      first
        | (intro hm; exact absurd hm (by decide))
        | (intro _; norm_num))

/-- Oracle for `local_state.uniform(lo, hi)`, indexed by draw position.
`BoundedDraws` is the hypothesis of C6 that every uniform draw lands inside
its requested bounds. -/
def BoundedDraws (rng : Nat → ℝ → ℝ → ℝ) : Prop :=
  ∀ n lo hi, lo ≤ hi → lo ≤ rng n lo hi ∧ rng n lo hi ≤ hi

/-- Effective bounds of `generateVal` (lines 71-77): `greater` raises the
lower bound to the referenced value, `less` lowers the upper bound.  (A
linked reference that is still `None` raises in Python; the registry draws
in declaration order so the reference is always set when used, and the
fallthrough keeps the plain bounds.) -/
def linkedBounds (p : MetParam) (refVal : Option ℝ) : ℝ × ℝ :=
  match p.link, refVal with
  | LinkRel.greater, some r => (Max.max r p.min, p.max)
  | LinkRel.less, some r => (p.min, Min.min p.max r)
  | _, _ => (p.min, p.max)

/-- `MetParam.generateVal` (lines 64-85): a fixed parameter returns its
stored value unchanged; otherwise a value is drawn inside the effective
bounds, directly for the `uniform` method and as
`10 ** uniform(log10 lo, log10 hi)` for `log10`. -/
noncomputable def generateVal (rng : Nat → ℝ → ℝ → ℝ) (n : Nat) (p : MetParam)
    (refVal : Option ℝ) : Option ℝ :=
  if p.fixed then p.val
  else
    match p.method with
    | GenMethod.uniform =>
        some (rng n (linkedBounds p refVal).1 (linkedBounds p refVal).2)
    | GenMethod.log10 =>
        some ((10 : ℝ) ^ (rng n (Real.logb 10 (linkedBounds p refVal).1)
          (Real.logb 10 (linkedBounds p refVal).2)))

open Classical in
/-- One step of the `getConst` sampling loop (lines 236-245): redraw when the
value is unset, `override` is set, or the stored value lies outside
`[min, max]`; otherwise keep the parameter as is. -/
noncomputable def maybeDraw (rng : Nat → ℝ → ℝ → ℝ) (n : Nat) (override : Bool)
    (p : MetParam) (refVal : Option ℝ) : MetParam :=
  match p.val with
  | none => { p with val := generateVal rng n p refVal }
  | some v =>
      if override = true ∨ p.max < v ∨ v < p.min then
        { p with val := generateVal rng n p refVal }
      else p

/-- The registry built by `PhysicalParameters.__init__` (lines 122-168):
bounds, defaults, distribution kinds, and the single link —
`erosion_mass_max` linked `'greater'` to `erosion_mass_min` (line 167).
`np.radians(x)` is `x * pi / 180`. -/
noncomputable def physicalParametersInit : PhysicalParameters where
  m_init := ⟨5e-7, 1e-3, some 2.4671e-6, false, GenMethod.log10, LinkRel.noLink⟩
  v_init := ⟨11000, 72000, some 3.0520e4, false, GenMethod.uniform, LinkRel.noLink⟩
  zenith_angle := ⟨20 * Real.pi / 180, 80 * Real.pi / 180, some (39.200 * Real.pi / 180),
    false, GenMethod.uniform, LinkRel.noLink⟩
  rho := ⟨100, 3500, some 2000, false, GenMethod.uniform, LinkRel.noLink⟩
  sigma := ⟨0.005 / 1e6, 0.3 / 1e6, some (0.05 / 1e6), false, GenMethod.uniform,
    LinkRel.noLink⟩
  erosion_height_start := ⟨70000, 130000, some 70000, false, GenMethod.uniform,
    LinkRel.noLink⟩
  erosion_coeff := ⟨0, 1.0 / 1e6, some 0, false, GenMethod.uniform, LinkRel.noLink⟩
  erosion_mass_index := ⟨1.5, 3.0, some 2, false, GenMethod.uniform, LinkRel.noLink⟩
  erosion_mass_min := ⟨1e-12, 1e-9, some 1e-12, false, GenMethod.log10, LinkRel.noLink⟩
  erosion_mass_max := ⟨1e-11, 1e-7, some 1e-10, false, GenMethod.log10, LinkRel.greater⟩

/-- `PhysicalParameters.getConst` (lines 214-246) restricted to its sampling
effect on the parameter set: each registered parameter is conditionally
redrawn in declaration order, and the `erosion_mass_max` draw references the
just-updated `erosion_mass_min` value.  Draws are indexed by parameter
position (the `BoundedDraws` hypothesis is uniform in the index, so
conditionally skipped draws do not shift the stated bounds). -/
noncomputable def getConst (rng : Nat → ℝ → ℝ → ℝ) (override : Bool)
    (pp : PhysicalParameters) : PhysicalParameters :=
  let p0 := maybeDraw rng 0 override pp.m_init none
  let p1 := maybeDraw rng 1 override pp.v_init none
  let p2 := maybeDraw rng 2 override pp.zenith_angle none
  let p3 := maybeDraw rng 3 override pp.rho none
  let p4 := maybeDraw rng 4 override pp.sigma none
  let p5 := maybeDraw rng 5 override pp.erosion_height_start none
  let p6 := maybeDraw rng 6 override pp.erosion_coeff none
  let p7 := maybeDraw rng 7 override pp.erosion_mass_index none
  let p8 := maybeDraw rng 8 override pp.erosion_mass_min none
  let p9 := maybeDraw rng 9 override pp.erosion_mass_max p8.val
  ⟨p0, p1, p2, p3, p4, p5, p6, p7, p8, p9⟩

theorem log10_draw_bounds (rng : Nat → ℝ → ℝ → ℝ) (hrng : BoundedDraws rng)
    (n : Nat) (lo hi : ℝ) (hlo : 0 < lo) (hlohi : lo ≤ hi) :
    lo ≤ (10 : ℝ) ^ (rng n (Real.logb 10 lo) (Real.logb 10 hi)) ∧
      (10 : ℝ) ^ (rng n (Real.logb 10 lo) (Real.logb 10 hi)) ≤ hi := by
  have hhi : 0 < hi := lt_of_lt_of_le hlo hlohi
  have hlog : Real.logb 10 lo ≤ Real.logb 10 hi :=
    Real.logb_le_logb_of_le (by norm_num) hlo hlohi
  obtain ⟨h1, h2⟩ := hrng n (Real.logb 10 lo) (Real.logb 10 hi) hlog
  constructor
  · calc lo = (10 : ℝ) ^ Real.logb 10 lo :=
        (Real.rpow_logb (by norm_num) (by norm_num) hlo).symm
      _ ≤ _ := (Real.rpow_le_rpow_left_iff (by norm_num : (1:ℝ) < 10)).mpr h1
  · calc (10 : ℝ) ^ (rng n (Real.logb 10 lo) (Real.logb 10 hi)) ≤
        (10 : ℝ) ^ Real.logb 10 hi :=
        (Real.rpow_le_rpow_left_iff (by norm_num : (1:ℝ) < 10)).mpr h2
      _ = hi := Real.rpow_logb (by norm_num) (by norm_num) hhi

theorem generateVal_greater_ge (rng : Nat → ℝ → ℝ → ℝ) (hrng : BoundedDraws rng)
    (n : Nat) (p : MetParam) (r : ℝ) (hfix : p.fixed = false)
    (hlink : p.link = LinkRel.greater) (hminmax : p.min ≤ p.max) (hr : r ≤ p.max)
    (hpos : p.method = GenMethod.log10 → 0 < p.min) :
    ∃ w, generateVal rng n p (some r) = some w ∧ r ≤ w ∧ w ≤ p.max := by
  have hbounds : linkedBounds p (some r) = (Max.max r p.min, p.max) := by
    simp [linkedBounds, hlink]
  have hlohi : Max.max r p.min ≤ p.max := max_le hr hminmax
  cases hm : p.method with
  | uniform =>
    refine ⟨rng n (Max.max r p.min) p.max, ?_, ?_, ?_⟩
    · simp [generateVal, hfix, hm, hbounds]
    · exact le_trans (le_max_left r p.min) (hrng n _ _ hlohi).1
    · exact (hrng n _ _ hlohi).2
  | log10 =>
    have hmin : 0 < p.min := hpos hm
    have hlo : 0 < Max.max r p.min := lt_of_lt_of_le hmin (le_max_right r p.min)
    obtain ⟨h1, h2⟩ := log10_draw_bounds rng hrng n (Max.max r p.min) p.max hlo hlohi
    refine ⟨(10 : ℝ) ^ (rng n (Real.logb 10 (Max.max r p.min)) (Real.logb 10 p.max)),
      ?_, ?_, ?_⟩
    · simp [generateVal, hfix, hm, hbounds]
    · exact le_trans (le_max_left r p.min) h1
    · exact h2

theorem generateVal_less_le (rng : Nat → ℝ → ℝ → ℝ) (hrng : BoundedDraws rng)
    (n : Nat) (p : MetParam) (r : ℝ) (hfix : p.fixed = false)
    (hlink : p.link = LinkRel.less) (hminmax : p.min ≤ p.max) (hr : p.min ≤ r)
    (hpos : p.method = GenMethod.log10 → 0 < p.min) :
    ∃ w, generateVal rng n p (some r) = some w ∧ w ≤ r ∧ p.min ≤ w := by
  have hbounds : linkedBounds p (some r) = (p.min, Min.min p.max r) := by
    simp [linkedBounds, hlink]
  have hlohi : p.min ≤ Min.min p.max r := le_min hminmax hr
  cases hm : p.method with
  | uniform =>
    refine ⟨rng n p.min (Min.min p.max r), ?_, ?_, ?_⟩
    · simp [generateVal, hfix, hm, hbounds]
    · exact le_trans (hrng n _ _ hlohi).2 (min_le_right p.max r)
    · exact (hrng n _ _ hlohi).1
  | log10 =>
    have hmin : 0 < p.min := hpos hm
    obtain ⟨h1, h2⟩ := log10_draw_bounds rng hrng n p.min (Min.min p.max r) hmin hlohi
    refine ⟨(10 : ℝ) ^ (rng n (Real.logb 10 p.min) (Real.logb 10 (Min.min p.max r))),
      ?_, ?_, ?_⟩
    · simp [generateVal, hfix, hm, hbounds]
    · exact le_trans h2 (min_le_right p.max r)
    · exact h1

theorem maybeDraw_override (rng : Nat → ℝ → ℝ → ℝ) (n : Nat) (p : MetParam)
    (refVal : Option ℝ) :
    maybeDraw rng n true p refVal = { p with val := generateVal rng n p refVal } := by
  rcases hval : p.val with _ | v <;> simp [maybeDraw, hval]

theorem maybeDraw_keep (rng : Nat → ℝ → ℝ → ℝ) (n : Nat) (p : MetParam)
    (refVal : Option ℝ) (v : ℝ) (hv : p.val = some v) (h1 : ¬ p.max < v)
    (h2 : ¬ v < p.min) : maybeDraw rng n false p refVal = p := by
  simp [maybeDraw, hv, h1, h2]

/-- C6.  Assuming every uniform draw lands inside its requested bounds: after
`generateVal`, a parameter linked with `'greater'` holds a value at least the
referenced parameter's current value (when that value does not exceed the
linked parameter's max), one linked with `'less'` holds a value at most it
(when that value is not below the linked parameter's min); and after
`getConst` draws the registry in declaration order,
`erosion_mass_max >= erosion_mass_min`. -/
theorem c6_link_relations_hold (rng : Nat → ℝ → ℝ → ℝ) (hrng : BoundedDraws rng) :
    (∀ n (p : MetParam) (r : ℝ), p.fixed = false → p.link = LinkRel.greater →
      p.min ≤ p.max → r ≤ p.max → (p.method = GenMethod.log10 → 0 < p.min) →
      ∃ w, generateVal rng n p (some r) = some w ∧ r ≤ w) ∧
      (∀ n (p : MetParam) (r : ℝ), p.fixed = false → p.link = LinkRel.less →
        p.min ≤ p.max → p.min ≤ r → (p.method = GenMethod.log10 → 0 < p.min) →
        ∃ w, generateVal rng n p (some r) = some w ∧ w ≤ r) ∧
      (∀ override, ∃ a b,
        (getConst rng override physicalParametersInit).erosion_mass_min.val = some a ∧
        (getConst rng override physicalParametersInit).erosion_mass_max.val = some b ∧
        a ≤ b) := by
  refine ⟨?_, ?_, ?_⟩
  · intro n p r hfix hlink hminmax hr hpos
    obtain ⟨w, hw, hrw, _⟩ := generateVal_greater_ge rng hrng n p r hfix hlink hminmax hr hpos
    exact ⟨w, hw, hrw⟩
  · intro n p r hfix hlink hminmax hr hpos
    obtain ⟨w, hw, hwr, _⟩ := generateVal_less_le rng hrng n p r hfix hlink hminmax hr hpos
    exact ⟨w, hw, hwr⟩
  · intro override
    cases override with
    | false =>
      have h8 : (getConst rng false physicalParametersInit).erosion_mass_min =
          physicalParametersInit.erosion_mass_min := by
        simp only [getConst]
        exact maybeDraw_keep rng 8 physicalParametersInit.erosion_mass_min none 1e-12
          (by simp [physicalParametersInit]) (by norm_num [physicalParametersInit])
          (by norm_num [physicalParametersInit])
      have h9 : (getConst rng false physicalParametersInit).erosion_mass_max =
          physicalParametersInit.erosion_mass_max := by
        simp only [getConst]
        exact maybeDraw_keep rng 9 physicalParametersInit.erosion_mass_max _ 1e-10
          (by simp [physicalParametersInit]) (by norm_num [physicalParametersInit])
          (by norm_num [physicalParametersInit])
      refine ⟨1e-12, 1e-10, ?_, ?_, by norm_num⟩
      · rw [h8]
        simp [physicalParametersInit]
      · rw [h9]
        simp [physicalParametersInit]
    | true =>
      have h8 : (getConst rng true physicalParametersInit).erosion_mass_min.val =
          some ((10 : ℝ) ^ (rng 8 (Real.logb 10 1e-12) (Real.logb 10 1e-9))) := by
        simp only [getConst, maybeDraw_override]
        simp [generateVal, linkedBounds, physicalParametersInit]
      have ha := log10_draw_bounds rng hrng 8 (1e-12 : ℝ) (1e-9 : ℝ)
        (by norm_num) (by norm_num)
      set a := (10 : ℝ) ^ (rng 8 (Real.logb 10 1e-12) (Real.logb 10 1e-9)) with hadef
      have h9 : (getConst rng true physicalParametersInit).erosion_mass_max.val =
          some ((10 : ℝ) ^ (rng 9 (Real.logb 10 (Max.max a 1e-11))
            (Real.logb 10 1e-7))) := by
        simp only [getConst, maybeDraw_override]
        simp [generateVal, linkedBounds, physicalParametersInit, hadef]
      have hlo : (0 : ℝ) < Max.max a 1e-11 :=
        lt_of_lt_of_le (by norm_num : (0:ℝ) < 1e-11) (le_max_right a 1e-11)
      have hlohi : Max.max a 1e-11 ≤ (1e-7 : ℝ) :=
        max_le (le_trans ha.2 (by norm_num)) (by norm_num)
      have hb := log10_draw_bounds rng hrng 9 (Max.max a 1e-11) (1e-7 : ℝ) hlo hlohi
      exact ⟨a, (10 : ℝ) ^ (rng 9 (Real.logb 10 (Max.max a 1e-11)) (Real.logb 10 1e-7)),
        h8, h9, le_trans (le_max_left a 1e-11) hb.1⟩

/-- Witness for C6: the oracle that always returns the lower bound satisfies
the bounded-draw hypothesis. -/
theorem c6_link_relations_hold_witness :
    (∀ n (p : MetParam) (r : ℝ), p.fixed = false → p.link = LinkRel.greater →
      p.min ≤ p.max → r ≤ p.max → (p.method = GenMethod.log10 → 0 < p.min) →
      ∃ w, generateVal (fun _ lo _ => lo) n p (some r) = some w ∧ r ≤ w) ∧
      (∀ n (p : MetParam) (r : ℝ), p.fixed = false → p.link = LinkRel.less →
        p.min ≤ p.max → p.min ≤ r → (p.method = GenMethod.log10 → 0 < p.min) →
        ∃ w, generateVal (fun _ lo _ => lo) n p (some r) = some w ∧ w ≤ r) ∧
      (∀ override, ∃ a b,
        (getConst (fun _ lo _ => lo) override physicalParametersInit).erosion_mass_min.val
            = some a ∧
        (getConst (fun _ lo _ => lo) override physicalParametersInit).erosion_mass_max.val
            = some b ∧
        a ≤ b) :=
  c6_link_relations_hold (fun _ lo _ => lo) (fun _ lo _ h => ⟨le_refl lo, h⟩)

end WMPL
